import Mathlib

/-!
# Verification of the compositional-forms state-propagation core

This file is a shallow embedding, in Lean 4, of the state-owning units of a
compositional form-state library (scalar field unit, field-array unit, root
orchestrator) together with their shared utilities (`unionSets`,
`unionMapValues`, the `ErrorArray` and `BooleanArray` value classes), and
proofs about them.

Modelling conventions, used consistently below:

* A `FieldError` is identified by a natural number; the *contents* of a
  JavaScript `Set<FieldError>` are modelled as a `Finset Nat` (abbreviated
  `ES`).  JavaScript `Set` union by object identity corresponds to `Finset`
  union of the identifying numbers.
* Where the source compares two error sets with `===` (reference equality)
  we model the comparison as equality of contents.  Reference equality
  implies equality of contents, so every short-circuit the JavaScript code
  takes is also taken by the model; where the model short-circuits but the
  JavaScript would recompute, the recomputed value has the same contents,
  so all contents-level statements are unaffected.  (For the one claim that
  is genuinely about reference identity — the behaviour of `unionSets` —
  a separate identity-carrying model `JSSet` is used, see further below.)
* A JavaScript `Map<number, Set<FieldError>>` is modelled as an association
  list `List (Nat × ES)` with JavaScript `Map` semantics: `set` replaces
  the value in place when the key is present and appends otherwise,
  `delete` removes the entry, iteration is in list order.
* JavaScript numbers used as array indices are modelled as `Int` where the
  source checks for negative indices, and as `Nat` once the bound check has
  passed.
* React `useState` semantics: inside an event handler, a state variable
  refers to the value captured at the last render; calling the setter does
  not change what the handler body subsequently reads.  The handler models
  below therefore read the *pre-update* state exactly where the source
  does, and return the post-update state separately.
-/

/-- Contents of a `Set<FieldError>`; each error object is identified by a
natural number. -/
abbrev ES : Type := Finset Nat

-- -----------------------------------------------------------------------------
-- JavaScript `Map<number, Set<FieldError>>` as an association list

/-- `Map.get(k)` — first entry with key `k`, if any. -/
def mapGet : List (Nat × ES) → Nat → Option ES
  | [], _ => none
  | (k', v) :: rest, k => if k' = k then some v else mapGet rest k

/-- `Map.set(k, v)` — replace in place if the key is present, else append
(JavaScript `Map` keeps insertion order). -/
def mapSet : List (Nat × ES) → Nat → ES → List (Nat × ES)
  | [], k, v => [(k, v)]
  | (k', v') :: rest, k, v =>
      if k' = k then (k, v) :: rest else (k', v') :: mapSet rest k v

/-- `Map.delete(k)` — drop the entry with key `k`. -/
def mapDelete (m : List (Nat × ES)) (k : Nat) : List (Nat × ES) :=
  m.filter (fun p => p.1 ≠ k)

/-- The keys of the map, in iteration order. -/
def keysOf (m : List (Nat × ES)) : List Nat := m.map Prod.fst

/-- `unionMapValues` (src/src/utils.ts): the union of all values of the map.
The source builds one combined `Set` by iterating over the map and adding
every member of every value; contents-wise this is the fold below. -/
def unionMapValues (m : List (Nat × ES)) : ES :=
  m.foldr (fun p acc => p.2 ∪ acc) ∅

-- -----------------------------------------------------------------------------
-- ErrorArray (src/src/use-field-array.ts, lines 603-733)

/-- `ErrorArray`: value class tracking errors for each element in an array
(sparse map from index to non-empty error set), the length of the array and
the cached union `combined` of the stored sets. -/
structure ErrorArray where
  errors : List (Nat × ES)
  length : Nat
  combined : ES
deriving DecidableEq

/-- `ErrorArray.fromLength` — empty sparse map, no errors. -/
def ErrorArray.fromLength (n : Nat) : ErrorArray := ⟨[], n, ∅⟩

/-- `ErrorArray.set(index, value)` — short-circuits when the stored value is
unchanged (or absent while the new value is empty); otherwise stores or
deletes the entry and recomputes `combined` with `unionMapValues`. -/
def ErrorArray.set (a : ErrorArray) (index : Nat) (value : ES) : ErrorArray :=
  let prevValue := mapGet a.errors index
  if prevValue = some value ∨ (prevValue = none ∧ value.card = 0) then a
  else
    let errors :=
      if 0 < value.card then mapSet a.errors index value
      else mapDelete a.errors index
    ⟨errors, a.length, unionMapValues errors⟩

/-- `ErrorArray.get(index)` — the stored set, or the empty set. -/
def ErrorArray.get (a : ErrorArray) (index : Nat) : ES :=
  (mapGet a.errors index).getD ∅

/-- `ErrorArray.push(value)` — appends at key `length`; `combined` is grown
by the pushed members (`new Set([...combined, ...value])`) without being
recomputed from the map. -/
def ErrorArray.push (a : ErrorArray) (value : ES) : ErrorArray :=
  if 0 < value.card then
    ⟨mapSet a.errors a.length value, a.length + 1, a.combined ∪ value⟩
  else
    ⟨a.errors, a.length + 1, a.combined⟩

/-- `ErrorArray.remove(index)` — short-circuits when the index has no entry;
otherwise deletes exactly that entry and recomputes `combined`.  Note that,
exactly as in the source, the `length` field is not decremented and entries
at higher indices are not re-keyed. -/
def ErrorArray.remove (a : ErrorArray) (index : Nat) : ErrorArray :=
  match mapGet a.errors index with
  | none => a
  | some _ =>
      let errors := mapDelete a.errors index
      ⟨errors, a.length, unionMapValues errors⟩

/-- `ErrorArray.slice(start, stop)` — keeps the entries whose key lies in
`[start, stop)`, *under their original keys* (the source loop does
`errors.set(i, value)` for the original `i`), with length `stop - start`. -/
def ErrorArray.slice (a : ErrorArray) (start stop : Nat) : ErrorArray :=
  let errors :=
    ((List.range (stop - start)).map (start + ·)).filterMap
      (fun i => (mapGet a.errors i).map (fun v => (i, v)))
  ⟨errors, stop - start, unionMapValues errors⟩

/-- `ErrorArray.concat(other)` — the source's four optimisation branches,
then the general case which copies `this.errors` and inserts every entry of
`other.errors` at its key shifted by `this.length`. -/
def ErrorArray.concat (a b : ErrorArray) : ErrorArray :=
  if b.length = 0 then a
  else if a.length = 0 then b
  else if a.errors.length = 0 then ⟨b.errors, a.length + b.length, b.combined⟩
  else if b.errors.length = 0 then ⟨a.errors, a.length + b.length, a.combined⟩
  else
    let errors := b.errors.foldl (fun m p => mapSet m (p.1 + a.length) p.2) a.errors
    ⟨errors, a.length + b.length, unionMapValues errors⟩

/-- `ErrorArray.allErrors` — the cached combined set. -/
def ErrorArray.allErrors (a : ErrorArray) : ES := a.combined

-- -----------------------------------------------------------------------------
-- BooleanArray (src/src/use-field-array.ts, lines 529-592)

/-- `BooleanArray`: value class tracking which array elements are true,
with a cached count of true elements.  `numTrue` is an `Int` because the
source's arithmetic can decrement it. -/
structure BooleanArray where
  bits : List Bool
  numTrue : Int
deriving DecidableEq

/-- `BooleanArray.fromLength` — all `false`. -/
def BooleanArray.fromLength (n : Nat) : BooleanArray :=
  ⟨List.replicate n false, 0⟩

/-- `BooleanArray.get(index)` — for in-range indices this is the stored bit;
the source returns `undefined` out of range, which every use treats as
falsy, so the model defaults to `false`. -/
def BooleanArray.get (a : BooleanArray) (index : Nat) : Bool :=
  a.bits.getD index false

/-- `BooleanArray.set(index, value)` — short-circuits when unchanged,
otherwise rebuilds the list with the one bit replaced and adjusts
`numTrue` by `value && !bits[index] ? +1 : -1`. -/
def BooleanArray.set (a : BooleanArray) (index : Nat) (value : Bool) : BooleanArray :=
  if a.get index = value then a
  else
    ⟨a.bits.set index value,
     a.numTrue + (if value && !(a.get index) then 1 else -1)⟩

/-- `BooleanArray.push(value)`. -/
def BooleanArray.push (a : BooleanArray) (value : Bool) : BooleanArray :=
  ⟨a.bits ++ [value], a.numTrue + (if value then 1 else 0)⟩

/-- `BooleanArray.remove(index)` — filters the slot out (higher indices
shift down by one) and decrements `numTrue` when the removed bit was set. -/
def BooleanArray.remove (a : BooleanArray) (index : Nat) : BooleanArray :=
  ⟨a.bits.eraseIdx index,
   if a.get index then a.numTrue - 1 else a.numTrue⟩

/-- `BooleanArray.slice(start, stop)` — recounts the kept bits. -/
def BooleanArray.slice (a : BooleanArray) (start stop : Nat) : BooleanArray :=
  let bits := (a.bits.drop start).take (stop - start)
  ⟨bits, (bits.countP id : Nat)⟩

/-- `BooleanArray.concat(other)`. -/
def BooleanArray.concat (a b : BooleanArray) : BooleanArray :=
  ⟨a.bits ++ b.bits, a.numTrue + b.numTrue⟩

/-- `BooleanArray.isAnyTrue` — `numTrue > 0`. -/
def BooleanArray.isAnyTrue (a : BooleanArray) : Bool := a.numTrue > 0

example : (ErrorArray.fromLength 2).push {3} =
    ⟨[(2, {3})], 3, {3}⟩ := by decide
example : ((ErrorArray.fromLength 2).set 0 {1}).remove 0 =
    ⟨[], 2, ∅⟩ := by decide
example : (BooleanArray.fromLength 2).set 1 true =
    ⟨[false, true], 1⟩ := by decide

-- -----------------------------------------------------------------------------
-- The field-array unit (src/src/use-field-array.ts, lines 810-1092)

/-- The props of `useFieldArray` that the handlers close over: the parent's
`initialValue` for the array, and the optional array-level `validate` prop.
Element values are modelled as `Int` (a JavaScript primitive compared with
`===`). -/
structure ArrParams where
  initialValue : List Int
  validate : Option (List Int → ES)

/-- `validate?.(val) ?? NO_FIELD_ERRORS`. -/
def runValidate (A : ArrParams) (val : List Int) : ES :=
  match A.validate with
  | some f => f val
  | none => ∅

/-- The persistent state of one mounted `useFieldArray`: the `value` the
parent currently passes down (the parent adopts every notified value, as the
root orchestrator does), the `dirtyBits` and `fieldErrors` `useState` cells,
the array-level `errors` state (`localErrors`) together with the
`prevErrors` ref, and the `childRefs` ref cache (child handles are
identified by numbers, `none` is a null slot). -/
structure ArrState where
  value : List Int
  dirtyBits : BooleanArray
  fieldErrors : ErrorArray
  localErrors : ES
  prevErrors : ES
  childRefs : List (Option Nat)
deriving DecidableEq

/-- A bottom-up notification `onChange(newValue, {isDirty, errors})`. -/
structure ArrNotif where
  value : List Int
  isDirty : Bool
  errors : ES
deriving DecidableEq

/-- The state of a freshly mounted field array: caches sized from
`initialValue.length`, array-level errors start at `NO_FIELD_ERRORS`. -/
def arrMount (A : ArrParams) : ArrState :=
  ⟨A.initialValue,
   BooleanArray.fromLength A.initialValue.length,
   ErrorArray.fromLength A.initialValue.length,
   ∅, ∅,
   List.replicate A.initialValue.length none⟩

/-- `validateAndSetErrors` for the array level: runs the validator and
stores the result in `errors` and `prevErrors` (the deep-equality reuse in
the source only affects object identity, not contents). -/
def arrValidateAndSetErrors (A : ArrParams) (st : ArrState) (val : List Int) :
    ArrState × ES :=
  let newErrors := runValidate A val
  ({st with localErrors := newErrors, prevErrors := newErrors}, newErrors)

/-- `onChangeItem(newItemValue, {isDirty, errors}, index)`
(src/src/use-field-array.ts, lines 884-907).  Returns the post-update state
and the notification sent to the parent, if any.

Faithful to the source, the notification is computed from the *render
scope* values: line 901 reads `fieldErrors.allErrors` and line 903 reads
`dirtyBits.isAnyTrue` of the pre-update `useState` values, not of the
freshly computed `fieldErrors.set ...` / `dirtyBits.set ...` results. -/
def arrOnChangeItem (A : ArrParams) (st : ArrState) (newItemValue : Int)
    (childIsDirty : Bool) (newItemErrors : ES) (index : Nat) :
    ArrState × Option ArrNotif :=
  let errors := st.fieldErrors.get index
  if newItemValue = st.value.getD index 0 ∧
      childIsDirty = st.dirtyBits.get index ∧
      (newItemErrors = errors ∨ (newItemErrors.card = 0 ∧ errors.card = 0)) then
    (st, none)
  else
    let newValue := st.value.set index newItemValue
    let newDirtyBits := st.dirtyBits.set index childIsDirty
    let newFieldErrors := st.fieldErrors.set index newItemErrors
    let st1 := {st with value := newValue, dirtyBits := newDirtyBits,
                        fieldErrors := newFieldErrors}
    let (st2, newErrors) := arrValidateAndSetErrors A st1 newValue
    let allErrors : ES := newErrors ∪ st.fieldErrors.allErrors
    (st2,
     some ⟨newValue,
           decide (newValue.length ≠ A.initialValue.length) || st.dirtyBits.isAnyTrue,
           allErrors⟩)

/-- `append(initialItemValue)` (src/src/use-field-array.ts, lines
1036-1058). -/
def arrAppend (A : ArrParams) (st : ArrState) (initialItemValue : Int) :
    ArrState × Option ArrNotif :=
  let newValue := st.value ++ [initialItemValue]
  let newDirtyBits := st.dirtyBits.push false
  let newFieldErrors := st.fieldErrors.push ∅
  let st1 := {st with value := newValue, dirtyBits := newDirtyBits,
                      fieldErrors := newFieldErrors,
                      childRefs := st.childRefs ++ [none]}
  let (st2, newErrors) := arrValidateAndSetErrors A st1 newValue
  let allErrors : ES := newErrors ∪ st.fieldErrors.allErrors
  (st2,
   some ⟨newValue,
         decide (newValue.length ≠ A.initialValue.length) || st.dirtyBits.isAnyTrue,
         allErrors⟩)

/-- `remove(index)` (src/src/use-field-array.ts, lines 1060-1086).

* Out-of-bounds indices short-circuit before any state is touched.
* The source line `childRefs.current.filter((_, i) => i !== index);`
  discards the result of `filter`, so the ref cache is left unchanged;
  the model mirrors that.
* As in `onChangeItem`, the notification reads `fieldErrors.allErrors` and
  `dirtyBits.isAnyTrue` from the pre-update render-scope values. -/
def arrRemove (A : ArrParams) (st : ArrState) (index : Int) :
    ArrState × Option ArrNotif :=
  if index < 0 ∨ (st.value.length : Int) ≤ index then (st, none)
  else
    let i := index.toNat
    let newValue := st.value.eraseIdx i
    let newDirtyBits := st.dirtyBits.remove i
    let newFieldErrors := st.fieldErrors.remove i
    let st1 := {st with value := newValue, dirtyBits := newDirtyBits,
                        fieldErrors := newFieldErrors}
    let (st2, newErrors) := arrValidateAndSetErrors A st1 newValue
    let allErrors : ES := newErrors ∪ st.fieldErrors.allErrors
    (st2,
     some ⟨newValue,
           decide (newValue.length ≠ A.initialValue.length) || st.dirtyBits.isAnyTrue,
           allErrors⟩)

/-- The union, over the live elements, of the per-element error sets that
the children currently hold — i.e. what the aggregated error report is
specified to contain beyond the array-level errors.  In every trace we
study, the children's current error sets are exactly the sets last passed
to `onChangeItem` for a still-live index. -/
def perElementUnion (childErrorSets : List ES) : ES :=
  childErrorSets.foldr (· ∪ ·) ∅


-- -----------------------------------------------------------------------------
-- The scalar field unit (src/src/use-field.ts)

/-- The form-level validation mode (`UseFormProps.mode`). -/
inductive VMode where
  | onBlur
  | onChange
deriving DecidableEq

/-- `SetValueOptions.mode` (src/src/control.ts, lines 21-34). -/
inductive SVMode where
  | onChange
  | onBlur
  | set
deriving DecidableEq

/-- The `useState` cells of one mounted `useField`: current `value`, the
local copy of the `initialValue`, the `errors` state and the `prevErrors`
ref.  Field values are modelled as `Int`. -/
structure FieldSt where
  value : Int
  initialValue : Int
  errors : ES
  prevErrors : ES
deriving DecidableEq

/-- A freshly mounted field: `value` starts at the initial value and
`errors` starts at `NO_FIELD_ERRORS`, whatever the actual validity of the
value (validation is event-driven). -/
def fieldMount (initialValue : Int) : FieldSt :=
  ⟨initialValue, initialValue, ∅, ∅⟩

/-- `isDirty` — the `useMemo` of `value !== initialValue`. -/
def fieldIsDirty (st : FieldSt) : Bool := st.value ≠ st.initialValue

/-- `validate?.(val) ?? NO_FIELD_ERRORS` (a missing validator is always
valid). -/
def runFieldValidate (validate : Option (Int → ES)) (v : Int) : ES :=
  match validate with
  | some f => f v
  | none => ∅

/-- `validateAndSetErrors(val)` (src/src/use-field.ts, lines 170-185):
stores the validation result in `errors` and `prevErrors`.  (The
`fieldErrorSetsDeepEqual` check only decides whether the previous `Set`
object is reused; the contents are the same either way.) -/
def fieldValidateAndSetErrors (validate : Option (Int → ES)) (st : FieldSt)
    (val : Int) : FieldSt :=
  let newErrors := runFieldValidate validate val
  {st with errors := newErrors, prevErrors := newErrors}

/-- `wrappedOnChange(newValue)` (src/src/use-field.ts, lines 193-203):
no-op when the value is unchanged; otherwise validates when the mode is
`onChange`, then updates the value. -/
def fieldOnChange (validate : Option (Int → ES)) (mode : VMode) (st : FieldSt)
    (newValue : Int) : FieldSt :=
  if newValue = st.value then st
  else
    let st1 := if mode = VMode.onChange
      then fieldValidateAndSetErrors validate st newValue
      else st
    {st1 with value := newValue}

/-- `onBlur` (src/src/use-field.ts, lines 187-191). -/
def fieldOnBlur (validate : Option (Int → ES)) (mode : VMode) (st : FieldSt) :
    FieldSt :=
  if mode = VMode.onBlur then fieldValidateAndSetErrors validate st st.value
  else st

/-- The state part of `reset(newInitialValue?, options)`
(src/src/use-field.ts, lines 205-222): always adopts a provided new initial
value; unless the field is dirty and `keepDirtyValues` was passed, clears
`errors` and snaps `value` to the (possibly new) initial value.  The
`prevErrors` ref is not touched by the source. -/
def fieldReset (st : FieldSt) (newInitialValue : Option Int)
    (keepDirtyValues : Bool) : FieldSt :=
  let nextInitialValue := newInitialValue.getD st.initialValue
  let st1 := {st with initialValue := nextInitialValue}
  let keepValue := keepDirtyValues && fieldIsDirty st
  if keepValue then st1
  else {st1 with errors := ∅, value := nextInitialValue}

/-- The full `FieldRef.reset` call: the new state, paired with the value
the call returns to the caller.  The source function body has no `return`
statement, so the call evaluates to `undefined` — modelled as `none`. -/
def fieldResetCall (st : FieldSt) (newInitialValue : Option Int)
    (keepDirtyValues : Bool) : FieldSt × Option Int :=
  (fieldReset st newInitialValue keepDirtyValues, none)

/-- `setValue(newValue, {mode})` (src/src/use-field.ts, lines 229-245):
`onChange` re-uses `wrappedOnChange`, `set` only stores the value,
`onBlur` is an unimplemented `break` in the source switch. -/
def fieldSetValue (validate : Option (Int → ES)) (vmode : VMode)
    (st : FieldSt) (newValue : Int) (m : SVMode) : FieldSt :=
  match m with
  | SVMode.onBlur => st
  | SVMode.onChange => fieldOnChange validate vmode st newValue
  | SVMode.set => {st with value := newValue}

/-- The `validate()` method (src/src/use-field.ts, lines 224-227). -/
def fieldValidateMethod (validate : Option (Int → ES)) (st : FieldSt) :
    FieldSt × ES :=
  let st1 := fieldValidateAndSetErrors validate st st.value
  (st1, st1.errors)

/-- The dependency tuple of the field's notify-parent `useEffect`
(src/src/use-field.ts, lines 160-163). -/
def fieldNotif (st : FieldSt) : Int × Bool × ES :=
  (st.value, fieldIsDirty st, st.errors)

/-- The notification the field's `useEffect` emits after a state change:
it fires only when one of its dependencies `(value, isDirty, errors)`
changed. -/
def fieldEmits (old new : FieldSt) : Option (Int × Bool × ES) :=
  if fieldNotif new = fieldNotif old then none else some (fieldNotif new)

-- -----------------------------------------------------------------------------
-- The root orchestrator (src/src/use-form.ts)

/-- The `useState` cells of `useForm` that `reset` touches, with the root
form value modelled as `Int` (a root scalar field). -/
structure FormSt where
  value : Int
  initialValue : Int
  isSubmitted : Bool
  isSubmitSuccessful : Bool
deriving DecidableEq

/-- `reset(newValue?, options)` (src/src/use-form.ts, lines 211-219):
clears the submit flags, adopts a provided new initial value, and sets the
current value to `ref.current?.reset(newValue, options) ?? initialValue`,
where `childRet` is what the root child's `reset` returned and
`initialValue` is the render-scope (pre-call) stored initial value. -/
def formReset (f : FormSt) (newValue : Option Int) (childRet : Option Int) :
    FormSt :=
  {f with isSubmitted := false,
          isSubmitSuccessful := false,
          initialValue := newValue.getD f.initialValue,
          value := childRet.getD f.initialValue}

/-- The observable outcome of one invocation of the callable returned by
`handleSubmit(onValid, onInvalid)`: the final submit flags, which handler
was invoked with which argument, and whether the invocation re-threw an
exception from a handler. -/
structure SubmitOutcome where
  isSubmitting : Bool
  isSubmitted : Bool
  isSubmitSuccessful : Bool
  onValidCalledWith : Option Int
  onInvalidCalledWith : Option ES
  threw : Bool
deriving DecidableEq

/-- One invocation of the callable returned by `handleSubmit`
(src/src/use-form.ts, lines 187-209).  Inputs: the current form `value`,
the error set produced by `ref.current?.validate() ?? NO_FIELD_ERRORS`,
whether an `onInvalid` handler was supplied, and whether the invoked
handler throws.  The body mirrors the source:
`setIsSubmitting(true); setIsSubmitSuccessful(false);` then the `try`
block, then the `finally` block
(`setIsSubmitting(false); setIsSubmitted(true);`). -/
def handleSubmitRun (value : Int) (allErrors : ES) (hasOnInvalid : Bool)
    (onValidThrows onInvalidThrows : Bool) : SubmitOutcome :=
  let successful := false
  let (successful, onValidCalled, onInvalidCalled, threw) :=
    if allErrors.card = 0 then
      if onValidThrows then (successful, some value, (none : Option ES), true)
      else (true, some value, (none : Option ES), false)
    else if hasOnInvalid then (successful, none, some allErrors, onInvalidThrows)
    else (successful, none, none, false)
  ⟨false, true, successful, onValidCalled, onInvalidCalled, threw⟩


-- -----------------------------------------------------------------------------
-- unionSets (src/src/utils.ts, lines 13-45), with object identity

/-- A JavaScript `Set<FieldError>` object *with its identity*: `ref` is the
object's identity (two sets are `===` exactly when they are the same
`JSSet` value; distinct allocations always carry distinct `ref`s) and
`elems` is its contents.  The canonical `NO_FIELD_ERRORS` singleton is the
object with `ref = 0`, and an allocation site is modelled by passing in a
`fresh` identity, which a caller chooses distinct from every live `ref`
(in particular distinct from `0` — in JavaScript `new Set()` is never
`===` to the `NO_FIELD_ERRORS` singleton). -/
structure JSSet where
  ref : Nat
  elems : Finset Nat
deriving DecidableEq

/-- `NO_FIELD_ERRORS` (src/src/field-errors.ts): the canonical empty-set
singleton. -/
def NO_FIELD_ERRORS : JSSet := ⟨0, ∅⟩

/-- `unionSetList(sets)`: `sets.reduce((acc, set) => {...acc.add...}, new
Set())` — allocates one fresh set and adds every member of every input. -/
def unionSetList (fresh : Nat) (sets : List JSSet) : JSSet :=
  ⟨fresh, sets.foldl (fun acc s => acc ∪ s.elems) ∅⟩

/-- `unionSets(sets)` — the source switch on `sets.length`: `0` allocates
`new Set()`; `1` returns the input unchanged; `2` returns the first input
when the two are the same object, the second when the first is empty, the
first when the second is empty, and otherwise a fresh union; any longer
list goes to `unionSetList`. -/
def unionSets (fresh : Nat) (sets : List JSSet) : JSSet :=
  match sets with
  | [] => ⟨fresh, ∅⟩
  | [s] => s
  | [a, b] =>
      if a = b then a
      else if a.elems.card = 0 then b
      else if b.elems.card = 0 then a
      else unionSetList fresh [a, b]
  | _ => unionSetList fresh sets

/-- The union of the contents of a list of set objects (a fold from the
right; used as the specification-side description of "contains exactly the
members of all inputs"). -/
def listElemsUnion (sets : List JSSet) : Finset Nat :=
  sets.foldr (fun s acc => s.elems ∪ acc) ∅

/-- The behaviour of `unionOfMany` as the specification describes it after
amendment: zero inputs give a *fresh* empty set; one input is returned
unchanged; for two inputs the first is returned when the two are the same
object, else the second when the first is empty, else the first when the
second is empty, else a fresh union of the members of both; for more than
two inputs, a fresh set holding exactly the members of all inputs. -/
def unionOfManySpec (fresh : Nat) (sets : List JSSet) : JSSet :=
  match sets with
  | [] => ⟨fresh, ∅⟩
  | [s] => s
  | [a, b] =>
      if a = b then a
      else if a.elems = ∅ then b
      else if b.elems = ∅ then a
      else ⟨fresh, a.elems ∪ b.elems⟩
  | _ => ⟨fresh, listElemsUnion sets⟩



-- -----------------------------------------------------------------------------
-- Lemmas about the association-list map

theorem foldr_union_eq (m : List (Nat × ES)) (b : ES) :
    m.foldr (fun p acc => p.2 ∪ acc) b = unionMapValues m ∪ b := by
  induction m with
  | nil => simp [unionMapValues]
  | cons p rest ih =>
      simp only [unionMapValues, List.foldr_cons] at *
      rw [ih, Finset.union_assoc]

theorem unionMapValues_append (m l : List (Nat × ES)) :
    unionMapValues (m ++ l) = unionMapValues m ∪ unionMapValues l := by
  simp only [unionMapValues, List.foldr_append]
  exact foldr_union_eq m (unionMapValues l)

theorem keysOf_append (m l : List (Nat × ES)) :
    keysOf (m ++ l) = keysOf m ++ keysOf l := by
  simp [keysOf]

theorem mapSet_of_not_mem (m : List (Nat × ES)) (k : Nat) (v : ES)
    (h : k ∉ keysOf m) : mapSet m k v = m ++ [(k, v)] := by
  induction m with
  | nil => rfl
  | cons p rest ih =>
      simp only [keysOf, List.map_cons, List.mem_cons, not_or] at h
      obtain ⟨h1, h2⟩ := h
      simp only [mapSet, if_neg (fun hk : p.1 = k => h1 hk.symm), List.cons_append]
      rw [ih (by simpa [keysOf] using h2)]

theorem mem_keysOf_mapSet (m : List (Nat × ES)) (k : Nat) (v : ES) (k' : Nat)
    (h : k' ∈ keysOf (mapSet m k v)) : k' ∈ keysOf m ∨ k' = k := by
  induction m with
  | nil => simpa [mapSet, keysOf] using h
  | cons p rest ih =>
      by_cases hk : p.1 = k
      · simp only [mapSet, if_pos hk, keysOf, List.map_cons, List.mem_cons] at h ⊢
        rcases h with h | h
        · exact Or.inr h
        · exact Or.inl (Or.inr h)
      · simp only [mapSet, if_neg hk, keysOf, List.map_cons, List.mem_cons] at h ⊢
        rcases h with h | h
        · exact Or.inl (Or.inl h)
        · rcases ih h with h' | h'
          · exact Or.inl (Or.inr h')
          · exact Or.inr h'

theorem nodup_keysOf_mapSet (m : List (Nat × ES)) (k : Nat) (v : ES)
    (h : (keysOf m).Nodup) : (keysOf (mapSet m k v)).Nodup := by
  induction m with
  | nil => simp [mapSet, keysOf]
  | cons p rest ih =>
      simp only [keysOf, List.map_cons, List.nodup_cons] at h
      by_cases hk : p.1 = k
      · simp only [mapSet, if_pos hk, keysOf, List.map_cons, List.nodup_cons]
        exact ⟨by rw [← hk]; exact h.1, h.2⟩
      · simp only [mapSet, if_neg hk, keysOf, List.map_cons, List.nodup_cons]
        refine ⟨fun hm => ?_, ih h.2⟩
        rcases mem_keysOf_mapSet rest k v p.1 hm with h' | h'
        · exact h.1 h'
        · exact hk h'

theorem keysOf_mapDelete_sublist (m : List (Nat × ES)) (k : Nat) :
    (keysOf (mapDelete m k)).Sublist (keysOf m) :=
  (List.filter_sublist m).map Prod.fst

theorem keysOf_sliceMap (l : List Nat) (g : Nat → Option ES) :
    (keysOf (l.filterMap (fun i => (g i).map (fun v => (i, v))))).Sublist l := by
  induction l with
  | nil => simp [keysOf]
  | cons i rest ih =>
      cases hg : g i with
      | none =>
          simp only [List.filterMap_cons, hg, Option.map_none']
          exact ih.cons i
      | some v =>
          simp only [List.filterMap_cons, hg, Option.map_some', keysOf, List.map_cons]
          exact ih.cons₂ i

theorem foldl_mapSet_append (l m : List (Nat × ES)) (d : Nat)
    (h : ∀ p ∈ l, p.1 + d ∉ keysOf m) (hnd : (keysOf l).Nodup) :
    l.foldl (fun acc p => mapSet acc (p.1 + d) p.2) m
      = m ++ l.map (fun p => (p.1 + d, p.2)) := by
  induction l generalizing m with
  | nil => simp
  | cons p rest ih =>
      simp only [List.foldl_cons, List.map_cons]
      rw [mapSet_of_not_mem m (p.1 + d) p.2 (h p (List.mem_cons_self p rest))]
      simp only [keysOf, List.map_cons, List.nodup_cons] at hnd
      rw [ih (m ++ [(p.1 + d, p.2)]) ?_ hnd.2]
      · simp
      · intro q hq
        rw [keysOf_append]
        simp only [List.mem_append, keysOf, List.map_cons, List.map_nil,
          List.mem_singleton, not_or]
        refine ⟨h q (List.mem_cons_of_mem p hq), fun hqd => ?_⟩
        have : q.1 = p.1 := by omega
        exact hnd.1 (this ▸ List.mem_map_of_mem Prod.fst hq)

-- -----------------------------------------------------------------------------
-- The ErrorArray representation invariant

/-- The representation invariant of `ErrorArray` maintained by the
`useFieldArray` usage pattern: the cached `combined` set is the union of
the values of the sparse map, every key is below `length`, and keys are
not duplicated. -/
abbrev EAInv (a : ErrorArray) : Prop :=
  a.combined = unionMapValues a.errors ∧
  (∀ k ∈ keysOf a.errors, k < a.length) ∧
  (keysOf a.errors).Nodup

theorem EAInv_fromLength (n : Nat) : EAInv (ErrorArray.fromLength n) := by
  refine ⟨rfl, ?_, ?_⟩ <;> simp [ErrorArray.fromLength, keysOf, unionMapValues]

theorem EAInv_set (a : ErrorArray) (i : Nat) (v : ES) (ha : EAInv a)
    (hi : i < a.length) : EAInv (a.set i v) := by
  by_cases hc : mapGet a.errors i = some v ∨ (mapGet a.errors i = none ∧ v.card = 0)
  · simpa only [ErrorArray.set, if_pos hc] using ha
  · by_cases hv : 0 < v.card
    · simp only [ErrorArray.set, if_neg hc, if_pos hv]
      refine ⟨rfl, ?_, nodup_keysOf_mapSet _ _ _ ha.2.2⟩
      intro k hk
      rcases mem_keysOf_mapSet a.errors i v k hk with h | h
      · exact ha.2.1 k h
      · exact h ▸ hi
    · simp only [ErrorArray.set, if_neg hc, if_neg hv]
      refine ⟨rfl, ?_, (keysOf_mapDelete_sublist a.errors i).nodup ha.2.2⟩
      intro k hk
      exact ha.2.1 k ((keysOf_mapDelete_sublist a.errors i).subset hk)

theorem EAInv_push (a : ErrorArray) (v : ES) (ha : EAInv a) :
    EAInv (a.push v) := by
  by_cases hv : 0 < v.card
  · have hnot : a.length ∉ keysOf a.errors := fun h =>
      lt_irrefl a.length (ha.2.1 a.length h)
    simp only [ErrorArray.push, if_pos hv,
      mapSet_of_not_mem a.errors a.length v hnot]
    refine ⟨?_, ?_, ?_⟩ <;> dsimp only
    · rw [unionMapValues_append, ha.1]
      simp [unionMapValues]
    · intro k hk
      rw [keysOf_append] at hk
      rcases List.mem_append.mp hk with h | h
      · exact Nat.lt_succ_of_lt (ha.2.1 k h)
      · simp only [keysOf, List.map_cons, List.map_nil, List.mem_singleton] at h
        omega
    · rw [keysOf_append]
      refine List.Nodup.append ha.2.2 (by simp [keysOf]) ?_
      simp only [keysOf, List.map_cons, List.map_nil, List.disjoint_singleton]
      exact hnot
  · simp only [ErrorArray.push, if_neg hv]
    exact ⟨ha.1, fun k hk => Nat.lt_succ_of_lt (ha.2.1 k hk), ha.2.2⟩

theorem EAInv_remove (a : ErrorArray) (i : Nat) (ha : EAInv a) :
    EAInv (a.remove i) := by
  unfold ErrorArray.remove
  split
  · exact ha
  · refine ⟨rfl, ?_, (keysOf_mapDelete_sublist a.errors i).nodup ha.2.2⟩
    intro k hk
    exact ha.2.1 k ((keysOf_mapDelete_sublist a.errors i).subset hk)

theorem EAInv_slice0 (a : ErrorArray) (e : Nat) (_ha : EAInv a) :
    EAInv (a.slice 0 e) := by
  have hmap : (List.range e).map (fun x => 0 + x) = List.range e := by simp
  simp only [ErrorArray.slice, Nat.sub_zero]
  rw [hmap]
  have hsub := keysOf_sliceMap (List.range e) (fun i => mapGet a.errors i)
  refine ⟨rfl, ?_, ?_⟩
  · intro k hk
    have hmem : k ∈ List.range e := hsub.subset hk
    simpa using hmem
  · exact hsub.nodup (List.nodup_range e)

theorem EAInv_concat (a b : ErrorArray) (ha : EAInv a) (hb : EAInv b) :
    EAInv (a.concat b) := by
  by_cases hb0 : b.length = 0
  · simpa only [ErrorArray.concat, if_pos hb0] using ha
  by_cases ha0 : a.length = 0
  · simpa only [ErrorArray.concat, if_neg hb0, if_pos ha0] using hb
  by_cases hae : a.errors.length = 0
  · simp only [ErrorArray.concat, if_neg hb0, if_neg ha0, if_pos hae]
    refine ⟨hb.1, ?_, hb.2.2⟩
    intro k hk
    exact Nat.lt_of_lt_of_le (hb.2.1 k hk) (Nat.le_add_left _ _)
  by_cases hbe : b.errors.length = 0
  · simp only [ErrorArray.concat, if_neg hb0, if_neg ha0, if_neg hae, if_pos hbe]
    refine ⟨ha.1, ?_, ha.2.2⟩
    intro k hk
    exact Nat.lt_of_lt_of_le (ha.2.1 k hk) (Nat.le_add_right _ _)
  · have hfold := foldl_mapSet_append b.errors a.errors a.length
      (fun p _ hmem => absurd (ha.2.1 _ hmem) (by omega))
      hb.2.2
    simp only [ErrorArray.concat, if_neg hb0, if_neg ha0, if_neg hae, if_neg hbe]
    rw [hfold]
    refine ⟨rfl, ?_, ?_⟩ <;> dsimp only
    · intro k hk
      rw [keysOf_append] at hk
      rcases List.mem_append.mp hk with h | h
      · exact Nat.lt_of_lt_of_le (ha.2.1 k h) (Nat.le_add_right _ _)
      · simp only [keysOf, List.map_map] at h
        obtain ⟨p, hp, hpk⟩ := List.mem_map.mp h
        have hb1 := hb.2.1 p.1 (List.mem_map_of_mem Prod.fst hp)
        simp only [Function.comp] at hpk
        omega
    · rw [keysOf_append]
      have hkeys : keysOf (b.errors.map (fun p => (p.1 + a.length, p.2)))
          = (keysOf b.errors).map (· + a.length) := by
        simp [keysOf, List.map_map, Function.comp]
      rw [hkeys]
      refine List.Nodup.append ha.2.2 ?_ ?_
      · exact hb.2.2.map (fun x y hxy => by omega)
      · intro k hka hkb
        obtain ⟨k0, hk0, rfl⟩ := List.mem_map.mp hkb
        have := ha.2.1 _ hka
        omega

-- -----------------------------------------------------------------------------
-- Reachability of ErrorArray states

/-- One operation on an `ErrorArray`, as invoked by `useFieldArray`
(`slice` is always called with `start = 0` there). -/
inductive EOp where
  | set (index : Nat) (value : ES)
  | push (value : ES)
  | remove (index : Nat)
  | slice0 (stop : Nat)
  | concat (other : ErrorArray)
deriving DecidableEq

/-- Apply one operation. -/
def applyOp (a : ErrorArray) : EOp → ErrorArray
  | EOp.set i v => a.set i v
  | EOp.push v => a.push v
  | EOp.remove i => a.remove i
  | EOp.slice0 e => a.slice 0 e
  | EOp.concat b => a.concat b

/-- Apply a sequence of operations in order. -/
def applyOps (a : ErrorArray) : List EOp → ErrorArray
  | [] => a
  | op :: rest => applyOps (applyOp a op) rest

/-- In-range side conditions for one operation: indices below the current
length, slices bounded by the current length, and concatenation with an
array that itself satisfies the representation invariant. -/
def WFOp (a : ErrorArray) : EOp → Prop
  | EOp.set i _ => i < a.length
  | EOp.push _ => True
  | EOp.remove i => i < a.length
  | EOp.slice0 e => e ≤ a.length
  | EOp.concat b => EAInv b

/-- In-range side conditions along a whole operation sequence. -/
def WFOps : ErrorArray → List EOp → Prop
  | _, [] => True
  | a, op :: rest => WFOp a op ∧ WFOps (applyOp a op) rest

instance instDecWFOp (a : ErrorArray) (op : EOp) : Decidable (WFOp a op) :=
  match op with
  | EOp.set i _ => inferInstanceAs (Decidable (i < a.length))
  | EOp.push _ => inferInstanceAs (Decidable True)
  | EOp.remove i => inferInstanceAs (Decidable (i < a.length))
  | EOp.slice0 e => inferInstanceAs (Decidable (e ≤ a.length))
  | EOp.concat b => inferInstanceAs (Decidable (EAInv b))

instance instDecWFOps : (a : ErrorArray) → (ops : List EOp) → Decidable (WFOps a ops)
  | _, [] => inferInstanceAs (Decidable True)
  | a, op :: rest =>
      have : Decidable (WFOps (applyOp a op) rest) := instDecWFOps _ rest
      inferInstanceAs (Decidable (WFOp a op ∧ WFOps (applyOp a op) rest))

theorem EAInv_applyOp (a : ErrorArray) (op : EOp) (ha : EAInv a)
    (hop : WFOp a op) : EAInv (applyOp a op) := by
  cases op with
  | set i v => exact EAInv_set a i v ha hop
  | push v => exact EAInv_push a v ha
  | remove i => exact EAInv_remove a i ha
  | slice0 e => exact EAInv_slice0 a e ha
  | concat b => exact EAInv_concat a b ha hop

theorem EAInv_applyOps (ops : List EOp) (a : ErrorArray) (ha : EAInv a)
    (hops : WFOps a ops) : EAInv (applyOps a ops) := by
  induction ops generalizing a with
  | nil => exact ha
  | cons op rest ih =>
      exact ih (applyOp a op) (EAInv_applyOp a op ha hops.1) hops.2

example : WFOps (ErrorArray.fromLength 2)
    [EOp.set 0 {1}, EOp.push {2}, EOp.remove 0, EOp.slice0 2,
     EOp.concat (ErrorArray.fromLength 1)] := by decide

-- -----------------------------------------------------------------------------
-- Concrete scenarios used by the claim theorems

/-- The `ref` callback of `fields[index].control`
(src/src/use-field-array.ts, lines 914-916): a mounting child installs its
imperative handle into the cache slot for its index. -/
def arrInstallRef (st : ArrState) (index : Nat) (refId : Nat) : ArrState :=
  {st with childRefs := st.childRefs.set index (some refId)}

/-- A field array over one element with value `5` and no array-level
validator. -/
def arrP1 : ArrParams := ⟨[5], none⟩

/-- The one-element array after its child reported validation errors
`{7}` through `onChangeItem`. -/
def arrSt1 : ArrState :=
  (arrOnChangeItem arrP1 (arrMount arrP1) 5 false {7} 0).1

/-- A field array over two elements `[5, 6]` with no array-level
validator. -/
def arrP2 : ArrParams := ⟨[5, 6], none⟩

/-- The two-element array after both children mounted (installing their
refs) and reported errors `{1}` (index 0) and `{2}` (index 1). -/
def arrSt2 : ArrState :=
  (arrOnChangeItem arrP2
    (arrOnChangeItem arrP2
      (arrInstallRef (arrInstallRef (arrMount arrP2) 0 10) 1 11)
      5 false {1} 0).1
    6 false {2} 1).1

example : arrSt1.fieldErrors = ⟨[(0, {7})], 1, {7}⟩ := by decide
example : arrSt2.fieldErrors = ⟨[(0, {1}), (1, {2})], 2, {1, 2}⟩ := by decide
example : arrSt2.childRefs = [some 10, some 11] := by decide

-- -----------------------------------------------------------------------------
-- Claim theorems

/-- C1: the aggregated error set a field array reports to its parent is
specified to equal the union of the array-level validation errors and the
current per-element error sets, with no stale entries from removed
elements.  The code violates this: starting from a one-element array whose
child reported errors `{7}`, calling `remove 0` emits a notification whose
error set is still `{7}` — computed from the pre-removal `fieldErrors`
state — although no elements remain, the array-level validator returns the
empty set, and the union over the remaining (zero) per-element error sets
is empty. -/
theorem arrRemove_reports_removed_elements_errors :
    (arrRemove arrP1 arrSt1 0).2 = some ⟨[], true, {7}⟩ ∧
    (arrRemove arrP1 arrSt1 0).1.value = [] ∧
    runValidate arrP1 [] = ∅ ∧
    perElementUnion [] = ∅ := by decide

/-- C2: `remove(index)` is specified to splice the slot out of the value
list, the dirty bits, the error map and the ref cache, re-keying higher
indices down by one.  The code splices only the value list and the dirty
bits: in a two-element array with per-element errors `{1}` (index 0) and
`{2}` (index 1) and installed child refs `10` and `11`, removing index 0
leaves the surviving element's errors keyed at `1` (key not shifted, map
`length` still `2`, so `get 0` is empty while `get 1` still holds `{2}`),
and leaves the ref cache untouched because the source discards the result
of `childRefs.current.filter(...)`. -/
theorem arrRemove_does_not_rekey_or_splice_refs :
    arrSt2.fieldErrors.remove 0 = ⟨[(1, {2})], 2, {2}⟩ ∧
    (arrRemove arrP2 arrSt2 0).1.value = [6] ∧
    (arrRemove arrP2 arrSt2 0).1.dirtyBits.bits = [false] ∧
    (arrRemove arrP2 arrSt2 0).1.fieldErrors.get 0 = ∅ ∧
    (arrRemove arrP2 arrSt2 0).1.fieldErrors.get 1 = {2} ∧
    (arrRemove arrP2 arrSt2 0).1.childRefs = [some 10, some 11] := by decide

/-- C3 (counterexample): the claim says zero inputs yield *the canonical
empty set*; the source returns `new Set()`, a fresh allocation that is
never the same object as `NO_FIELD_ERRORS`. -/
theorem unionSets_empty_is_fresh_not_canonical :
    (unionSets 1 []).elems = ∅ ∧ unionSets 1 [] ≠ NO_FIELD_ERRORS := by decide

/-- The contents computed by `unionSetList` as a left fold equal the
right-fold union of the members. -/
theorem foldl_elems_union (l : List JSSet) (acc : Finset Nat) :
    l.foldl (fun acc s => acc ∪ s.elems) acc = acc ∪ listElemsUnion l := by
  induction l generalizing acc with
  | nil => simp [listElemsUnion]
  | cons s rest ih =>
      simp only [List.foldl_cons, listElemsUnion, List.foldr_cons] at *
      rw [ih, Finset.union_assoc]

/-- C3 (amended): `unionSets` behaves exactly as `unionOfManySpec`
describes — zero inputs give a fresh empty set (not the canonical
singleton); one input is returned unchanged; for two inputs the first is
returned when the two are the same object, else the second when the first
is empty, else the first when the second is empty, else a fresh union of
both; for three or more inputs, a fresh set holding exactly the members of
all inputs. -/
theorem unionSets_eq_unionOfManySpec (fresh : Nat) (sets : List JSSet) :
    unionSets fresh sets = unionOfManySpec fresh sets := by
  match sets with
  | [] => rfl
  | [s] => rfl
  | [a, b] =>
      simp only [unionSets, unionOfManySpec, Finset.card_eq_zero]
      by_cases hab : a = b
      · simp [hab]
      · simp only [if_neg hab]
        by_cases hae : a.elems = ∅
        · simp [hae]
        · simp only [if_neg hae]
          by_cases hbe : b.elems = ∅
          · simp [hbe]
          · simp only [if_neg hbe, unionSetList, List.foldl_cons, List.foldl_nil]
            rw [Finset.empty_union]
  | a :: b :: c :: rest =>
      simp only [unionSets, unionOfManySpec, unionSetList]
      rw [foldl_elems_union, Finset.empty_union]

/-- A "required-like" validator: values at most `1` are invalid with error
`{1}`, larger values are valid. -/
def requiredLE : Int → ES := fun v => if v ≤ 1 then {1} else ∅

/-- C4 (counterexample): a field mounted with the invalid value `0`
reports no errors, and an `onChange` carrying the *same* invalid value `0`
short-circuits (`newValue === value`) before validation runs, so the error
set stays empty — contradicting the claim that it becomes non-empty. -/
theorem onChange_same_invalid_value_keeps_no_errors :
    requiredLE 0 ≠ ∅ ∧
    (fieldMount 0).errors = ∅ ∧
    (fieldOnChange (some requiredLE) VMode.onChange (fieldMount 0) 0).errors
      = ∅ := by decide

/-- C4 (amended): a field mounted with an initially-invalid value reports
no errors before any event; after one `onChange` call in mode `onChange`
carrying a *different* but still-invalid value, the reported error set is
exactly the validator's (non-empty) result. -/
theorem onChange_new_invalid_value_reports_errors (validate : Int → ES)
    (v newValue : Int) (h1 : newValue ≠ v) (h2 : validate newValue ≠ ∅) :
    (fieldMount v).errors = ∅ ∧
    (fieldOnChange (some validate) VMode.onChange (fieldMount v) newValue).errors
      = validate newValue ∧
    (fieldOnChange (some validate) VMode.onChange (fieldMount v) newValue).errors
      ≠ ∅ := by
  have hrun : (fieldOnChange (some validate) VMode.onChange (fieldMount v)
      newValue).errors = validate newValue := by
    simp [fieldOnChange, fieldMount, h1, fieldValidateAndSetErrors,
      runFieldValidate]
  exact ⟨rfl, hrun, hrun ▸ h2⟩

/-- Witness for the amended C4 at validator `requiredLE`, initial value
`0`, changed value `1`. -/
theorem onChange_new_invalid_value_reports_errors_witness :
    (fieldMount 0).errors = ∅ ∧
    (fieldOnChange (some requiredLE) VMode.onChange (fieldMount 0) 1).errors
      = requiredLE 1 ∧
    (fieldOnChange (some requiredLE) VMode.onChange (fieldMount 0) 1).errors
      ≠ ∅ :=
  onChange_new_invalid_value_reports_errors requiredLE 0 1 (by decide) (by decide)

/-- A dirty scalar field: value `2`, stored initial value `1`. -/
def c5Field : FieldSt := ⟨2, 1, ∅, ∅⟩

/-- A root form whose child is `c5Field`: current value `2`, stored
initial value `1`, with both submit flags set. -/
def c5Form : FormSt := ⟨2, 1, true, true⟩

/-- C5: the claim says the scalar field's imperative `reset` returns the
post-reset value and the root adopts it.  The code's `reset` body has no
`return` statement, so the call yields `undefined` (`none`), and the
root's `?? initialValue` fallback makes it adopt its *pre-call stored
initial value* `1` as the new current value instead of the child's actual
post-reset value `3`. -/
theorem fieldReset_returns_none_and_root_adopts_stale_initial :
    (fieldResetCall c5Field (some 3) false).2 = none ∧
    (fieldResetCall c5Field (some 3) false).1.value = 3 ∧
    formReset c5Form (some 3) (fieldResetCall c5Field (some 3) false).2
      = ⟨1, 3, false, false⟩ := by decide

/-- C6: for a currently dirty scalar field,
`reset(newInitialValue, {keepDirtyValues: true})` leaves the value and the
stored errors untouched while still adopting a provided new initial value
(so dirtiness is subsequently judged against the new baseline). -/
theorem fieldReset_keepDirty_keeps_value_and_errors (st : FieldSt)
    (newInit : Option Int) (h : fieldIsDirty st = true) :
    (fieldReset st newInit true).value = st.value ∧
    (fieldReset st newInit true).errors = st.errors ∧
    (fieldReset st newInit true).initialValue = newInit.getD st.initialValue := by
  simp [fieldReset, h]

/-- Witness for C6 at the dirty field `⟨2, 1, {4}, {4}⟩` and new initial
value `7`. -/
theorem fieldReset_keepDirty_witness :
    (fieldReset ⟨2, 1, {4}, {4}⟩ (some 7) true).value
      = (FieldSt.mk 2 1 {4} {4}).value ∧
    (fieldReset ⟨2, 1, {4}, {4}⟩ (some 7) true).errors
      = (FieldSt.mk 2 1 {4} {4}).errors ∧
    (fieldReset ⟨2, 1, {4}, {4}⟩ (some 7) true).initialValue
      = (some 7).getD (FieldSt.mk 2 1 {4} {4}).initialValue :=
  fieldReset_keepDirty_keeps_value_and_errors ⟨2, 1, {4}, {4}⟩ (some 7) (by decide)

/-- C7: every invocation of the callable returned by `handleSubmit` ends
with `isSubmitting = false` and `isSubmitted = true` (the `finally`
block), calls `onValid` with the current value exactly when the forced
validation produced no errors, reaches `isSubmitSuccessful = true` exactly
when validation passed and `onValid` did not throw, and calls `onInvalid`
with the non-empty error set exactly when validation failed and a handler
was provided. -/
theorem handleSubmitRun_contract (value : Int) (allErrors : ES)
    (hasOnInvalid onValidThrows onInvalidThrows : Bool) :
    (handleSubmitRun value allErrors hasOnInvalid onValidThrows
        onInvalidThrows).isSubmitting = false ∧
    (handleSubmitRun value allErrors hasOnInvalid onValidThrows
        onInvalidThrows).isSubmitted = true ∧
    (handleSubmitRun value allErrors hasOnInvalid onValidThrows
        onInvalidThrows).onValidCalledWith
      = (if allErrors = ∅ then some value else none) ∧
    (handleSubmitRun value allErrors hasOnInvalid onValidThrows
        onInvalidThrows).isSubmitSuccessful
      = (if allErrors = ∅ ∧ onValidThrows = false then true else false) ∧
    (handleSubmitRun value allErrors hasOnInvalid onValidThrows
        onInvalidThrows).onInvalidCalledWith
      = (if allErrors = ∅ ∨ hasOnInvalid = false then none else some allErrors) := by
  by_cases he : allErrors = ∅ <;>
    cases hasOnInvalid <;> cases onValidThrows <;>
      simp [handleSubmitRun, Finset.card_eq_zero, he]

/-- C8: `remove(index)` with an out-of-bounds index (negative, or at least
the current length) is a silent no-op: the state — value list, dirty bits,
error map, ref cache — is unchanged and no notification is emitted. -/
theorem arrRemove_out_of_bounds_noop (A : ArrParams) (st : ArrState)
    (index : Int) (h : index < 0 ∨ (st.value.length : Int) ≤ index) :
    arrRemove A st index = (st, none) := by
  unfold arrRemove
  rw [if_pos h]

/-- Witness for C8: removing index `5` from a one-element array changes
nothing and emits nothing. -/
theorem arrRemove_out_of_bounds_noop_witness :
    arrRemove arrP1 (arrMount arrP1) 5 = (arrMount arrP1, none) :=
  arrRemove_out_of_bounds_noop arrP1 (arrMount arrP1) 5 (by decide)

/-- The `ErrorArray` built by `fromLength 3`, two in-range `set` calls, an
in-range `slice(1, 3)` and a `push`. -/
def c9arr : ErrorArray :=
  ((((ErrorArray.fromLength 3).set 1 {1}).set 2 {2}).slice 1 3).push {3}

/-- C9 (counterexample): the cached `combined` set is claimed to equal the
union of the sparse map's values after any in-range
`set`/`push`/`remove`/`slice`/`concat` sequence.  An in-range `slice(1,3)`
keeps entries under their original keys, so the following `push` collides
with the surviving key `2`, overwriting `{2}` in the map while adding
`{3}` to the cached union: `combined` is `{1, 2, 3}` but the map values
union to `{1, 3}`. -/
theorem errorArray_slice_push_breaks_combined :
    c9arr.combined = {1, 2, 3} ∧
    unionMapValues c9arr.errors = {1, 3} ∧
    c9arr.combined ≠ unionMapValues c9arr.errors := by decide

/-- C9 (amended): for every `ErrorArray` reachable from `fromLength` by
in-range `set`/`push`/`remove`/`concat` operations and `slice` calls with
`start = 0` (the only form the hook uses), the cached `combined` set
equals the union of the values of the sparse per-index map, so `allErrors`
reports exactly the union of the stored per-index error sets. -/
theorem errorArray_combined_eq_unionMapValues (n : Nat) (ops : List EOp)
    (h : WFOps (ErrorArray.fromLength n) ops) :
    (applyOps (ErrorArray.fromLength n) ops).combined
      = unionMapValues (applyOps (ErrorArray.fromLength n) ops).errors :=
  (EAInv_applyOps ops (ErrorArray.fromLength n) (EAInv_fromLength n) h).1

/-- An operation sequence exercising every `ErrorArray` operation. -/
def c9ops : List EOp :=
  [EOp.set 0 {1}, EOp.push {2}, EOp.remove 0, EOp.slice0 2,
   EOp.concat (((ErrorArray.fromLength 1).set 0 {4}))]

/-- Witness for the amended C9 on `c9ops` from length 2. -/
theorem errorArray_combined_eq_unionMapValues_witness :
    (applyOps (ErrorArray.fromLength 2) c9ops).combined
      = unionMapValues (applyOps (ErrorArray.fromLength 2) c9ops).errors :=
  errorArray_combined_eq_unionMapValues 2 c9ops (by decide)

/-- C10: the imperative `setValue(newValue, {mode: 'onBlur'})` on a scalar
field is a no-op — the `onBlur` case of the source switch is an
unimplemented `break` — so value, dirty state and errors are unchanged and
the notify-parent effect does not fire, regardless of `newValue`. -/
theorem fieldSetValue_onBlur_noop (validate : Option (Int → ES))
    (vmode : VMode) (st : FieldSt) (newValue : Int) :
    fieldSetValue validate vmode st newValue SVMode.onBlur = st ∧
    fieldEmits st (fieldSetValue validate vmode st newValue SVMode.onBlur)
      = none := by
  refine ⟨rfl, ?_⟩
  simp [fieldEmits, fieldSetValue]
